import Mathlib

/-!
Verification of the drip-feed selection and cursor-advancement algorithm of
the HN-to-Bluesky bot (`bot.ts`).

The embedding models the pure core of `main`:
  * `fetchRSSFeed` ends with `stories.sort((a, b) => a.id - b.id)`, modelled
    by a stable sort on the `id` field (`sortById`);
  * `newStories = stories.filter(story => story.id > state.lastStoryId)`;
  * `freshStories = newStories.filter(...)` keeping stories whose age in
    milliseconds is not strictly greater than `maxStoryAgeHours` hours;
  * the three outcomes: return early (no-op), advance the cursor to
    `Math.max(...newStories.map(s => s.id))` and save, or post
    `freshStories[0]` and save its id (skipping post and save under dry run,
    and aborting with exit code 1 when all publish attempts fail).

`loadState` is modelled over a small JSON value type, because its behavior
on syntactically-valid-but-wrong-shape content depends on what
`JSON.parse` returns and how JavaScript property access treats it.
Timestamps are integers (milliseconds since epoch, as `Date.getTime()`).
-/

namespace BskyHnBot

/-- The `Story` record built by `fetchRSSFeed` in `bot.ts`:
`{ id, title, url, hnUrl, publishedAt }` with `publishedAt` kept as
milliseconds since epoch (the value of `Date.getTime()`). -/
structure Story where
  id : Int
  title : String
  url : String
  hnUrl : String
  publishedAt : Int
  deriving Repr, DecidableEq

/-- The `BotState` record: `{ lastStoryId: number }`. -/
structure BotState where
  lastStoryId : Int
  deriving Repr, DecidableEq

/-- Comparator relation of `stories.sort((a, b) => a.id - b.id)`. -/
def leById (a b : Story) : Prop := a.id ≤ b.id

instance : DecidableRel leById := fun a b => inferInstanceAs (Decidable (a.id ≤ b.id))

instance : IsTotal Story leById := ⟨fun a b => Int.le_total a.id b.id⟩

instance : IsTrans Story leById := ⟨fun _ _ _ h1 h2 => Int.le_trans h1 h2⟩

/-- The sort at the end of `fetchRSSFeed`: `stories.sort((a, b) => a.id - b.id)`.
JavaScript `Array.prototype.sort` is stable; insertion sort is stable too. -/
def sortById (stories : List Story) : List Story :=
  stories.insertionSort leById

/-- The novelty predicate: `story.id > state.lastStoryId`. -/
def isNovel (lastId : Int) (s : Story) : Bool :=
  decide (s.id > lastId)

/-- Milliseconds per hour, as in `config.maxStoryAgeHours * 60 * 60 * 1000`. -/
def msPerHour : Int := 60 * 60 * 1000

/-- The freshness predicate of the `freshStories` filter:
`ageMs = now.getTime() - story.publishedAt.getTime()`; the story is dropped
exactly when `ageMs > maxAgeMs`. -/
def isFresh (now maxAgeMs : Int) (s : Story) : Bool :=
  if now - s.publishedAt > maxAgeMs then false else true

/-- `newStories = stories.filter(story => story.id > state.lastStoryId)`,
applied to the sorted feed returned by `fetchRSSFeed`. -/
def newStoriesOf (lastId : Int) (feed : List Story) : List Story :=
  (sortById feed).filter (isNovel lastId)

/-- `freshStories = newStories.filter(...)` with the age test above. -/
def freshStoriesOf (lastId now maxAgeHours : Int) (feed : List Story) : List Story :=
  (newStoriesOf lastId feed).filter (isFresh now (maxAgeHours * msPerHour))

/-- `Math.max(...stories.map(s => s.id))`, only ever applied to a non-empty
list in `main` (inside the `newStories.length === 0` guard). -/
def latestIdOf : List Story → Int
  | [] => 0
  | s :: rest => rest.foldl (fun m t => max m t.id) s.id

/-- The three-way decision of `main` (spec §3 `SelectionResult`). -/
inductive SelectionResult where
  | noOp
  | advanceOnly (newLastId : Int)
  | postAndAdvance (story : Story)
  deriving Repr, DecidableEq

/-- The selection logic of `main` in `bot.ts`:
return early when `newStories` is empty; when `freshStories` is empty,
advance to `Math.max(...newStories.map(s => s.id))`; otherwise pick
`freshStories[0]`. -/
def selectAction (lastId : Int) (feed : List Story) (now maxAgeHours : Int) :
    SelectionResult :=
  match newStoriesOf lastId feed with
  | [] => SelectionResult.noOp
  | n :: ns =>
    match (n :: ns).filter (isFresh now (maxAgeHours * msPerHour)) with
    | [] => SelectionResult.advanceOnly (latestIdOf (n :: ns))
    | s :: _ => SelectionResult.postAndAdvance s

/-- `retryWithBackoff(op, 3, ..)` succeeds iff some attempt `1..maxAttempts`
succeeds; `attemptOk i` tells whether the i-th attempt succeeds. -/
def retrySucceeds (attemptOk : Nat → Bool) (maxAttempts : Nat) : Bool :=
  (List.range maxAttempts).any (fun i => attemptOk (i + 1))

/-- Observable outcome of one invocation of `main`:
`saved` is the value written to the state file by `saveState` (`none` when
the file is not written), `exitCode` the process exit code, `published`
the story actually posted to Bluesky, and `dryRunReported` the story that a
dry run logged as `Would post`. -/
structure RunResult where
  saved : Option Int
  exitCode : Nat
  published : Option Story
  dryRunReported : Option Story
  deriving Repr, DecidableEq

/-- One invocation of `main` after a successful feed fetch, starting from a
loaded `lastStoryId` of `lastId`. `attemptOk i` is whether the i-th Bluesky
publish attempt succeeds; `retryWithBackoff` is called with 3 attempts and
a failure of all attempts reaches the outer catch, which exits with code 1
before any `saveState` call. -/
def runBot (lastId : Int) (feed : List Story) (now maxAgeHours : Int)
    (dryRun : Bool) (attemptOk : Nat → Bool) : RunResult :=
  match selectAction lastId feed now maxAgeHours with
  | SelectionResult.noOp =>
      { saved := none, exitCode := 0, published := none, dryRunReported := none }
  | SelectionResult.advanceOnly n =>
      { saved := some n, exitCode := 0, published := none, dryRunReported := none }
  | SelectionResult.postAndAdvance s =>
      if dryRun then
        { saved := none, exitCode := 0, published := none, dryRunReported := some s }
      else if retrySucceeds attemptOk 3 then
        { saved := some s.id, exitCode := 0, published := some s, dryRunReported := none }
      else
        { saved := none, exitCode := 1, published := none, dryRunReported := none }

/-- The state-file content after a run: the written value when `saveState`
ran, otherwise the untouched previous content. -/
def finalLastId (lastId : Int) (r : RunResult) : Int :=
  (r.saved).getD lastId

/-- Inputs of one invocation (everything `main` consumes besides the stored
cursor): the fetched feed, the clock, the age limit, the dry-run flag and
the publish-attempt outcomes. -/
structure RunInput where
  feed : List Story
  now : Int
  maxAgeHours : Int
  dryRun : Bool
  attemptOk : Nat → Bool

/-- State-file content after a sequence of invocations, each loading the
value the previous one left behind. -/
def runSeq (lastId : Int) : List RunInput → Int
  | [] => lastId
  | i :: rest =>
      runSeq (finalLastId lastId (runBot lastId i.feed i.now i.maxAgeHours i.dryRun i.attemptOk)) rest

/-! ### The state file and `loadState`

`loadState` wraps `readFileSync` + `JSON.parse` in a try/catch that returns
`{ lastStoryId: 0 }`. Anything `JSON.parse` accepts is returned unchanged
(the TypeScript cast performs no validation), so the behavior on
wrong-shape content is decided by JavaScript property access: reading
`.lastStoryId` of a non-null non-object value gives `undefined`, and
reading it off `null` throws a TypeError (escaping `loadState`, since the
access happens in `main`). -/

/-- JSON values, with numbers restricted to the integers (story ids and the
stored cursor are integral). -/
inductive Json where
  | null
  | bool (b : Bool)
  | num (n : Int)
  | str (s : String)
  | arr (elems : List Json)
  | obj (fields : List (String × Json))
  deriving Repr

/-- What reading the state file yields: `readFileSync` throws (missing or
unreadable file), `JSON.parse` throws (not valid JSON), or a parsed value. -/
inductive StateFileRead where
  | readError
  | parseError
  | parsed (v : Json)
  deriving Repr

/-- `loadState` from `bot.ts`: `JSON.parse(readFileSync(filepath))`, with the
catch block returning `{ lastStoryId: 0 }` when either call throws. A parsed
value is returned as-is: the `BotState` cast does not validate the shape. -/
def loadState : StateFileRead → Json
  | StateFileRead.readError => Json.obj [("lastStoryId", Json.num 0)]
  | StateFileRead.parseError => Json.obj [("lastStoryId", Json.num 0)]
  | StateFileRead.parsed v => v

/-- Object-field lookup as `JSON.parse` produces it: with duplicate keys the
last occurrence wins. -/
def lookupField (fields : List (String × Json)) (key : String) : Option Json :=
  ((fields.filter (fun p => p.1 == key)).getLast?).map Prod.snd

/-- The value JavaScript sees for `state.lastStoryId`. -/
inductive JsValue where
  | undef
  | num (n : Int)
  | other (v : Json)
  deriving Repr

/-- Outcome of the property access `state.lastStoryId` in `main`: a
TypeError for `null`, otherwise a value (`undefined` when the field is
absent or the state is not an object). -/
inductive PropAccess where
  | throws
  | value (v : JsValue)
  deriving Repr

/-- JavaScript semantics of `state.lastStoryId` on the value `loadState`
returned. -/
def getLastStoryId : Json → PropAccess
  | Json.null => PropAccess.throws
  | Json.obj fields =>
    match lookupField fields "lastStoryId" with
    | some (Json.num n) => PropAccess.value (JsValue.num n)
    | some v => PropAccess.value (JsValue.other v)
    | none => PropAccess.value JsValue.undef
  | _ => PropAccess.value JsValue.undef

/-- The documented shape of the state file (README: `{"lastStoryId": 0}`;
spec §6: a single JSON object `{ "lastStoryId": integer }`): a JSON object
whose `lastStoryId` field is a number. Stated from the spec to express
malformedness; `loadState` itself never checks this. -/
def isWellFormedState : Json → Bool
  | Json.obj fields =>
    match lookupField fields "lastStoryId" with
    | some (Json.num _) => true
    | _ => false
  | _ => false

/-- Duplicate-id removal, keeping the first occurrence of each id: the
spec's collapse of duplicate ids to a single logical item, used to compare
selection on a feed against selection on its deduplicated form. -/
def dedupByIdAux (seen : List Int) : List Story → List Story
  | [] => []
  | s :: rest =>
    if s.id ∈ seen then dedupByIdAux seen rest
    else s :: dedupByIdAux (s.id :: seen) rest

/-- Duplicate-id removal of a whole feed. -/
def dedupById (l : List Story) : List Story := dedupByIdAux [] l

/-- A concrete story for witnesses: id `i`, published at `p` ms. -/
def exStory (i p : Int) : Story :=
  { id := i, title := "story", url := "https://example.com/a",
    hnUrl := "https://news.ycombinator.com/item", publishedAt := p }

/-! ### Basic lemmas about the selection pipeline -/

theorem isNovel_eq_true_iff {lastId : Int} {s : Story} :
    isNovel lastId s = true ↔ lastId < s.id := by
  simp [isNovel]

theorem isFresh_eq_true_iff {now m : Int} {s : Story} :
    isFresh now m s = true ↔ now - s.publishedAt ≤ m := by
  simp only [isFresh]
  by_cases h : now - s.publishedAt > m <;> simp [h] <;> omega

theorem mem_sortById {s : Story} {l : List Story} : s ∈ sortById l ↔ s ∈ l :=
  List.mem_insertionSort leById

theorem sorted_sortById (l : List Story) : (sortById l).Sorted leById :=
  List.sorted_insertionSort leById l

theorem mem_newStoriesOf {s : Story} {lastId : Int} {l : List Story} :
    s ∈ newStoriesOf lastId l ↔ s ∈ l ∧ lastId < s.id := by
  simp [newStoriesOf, List.mem_filter, mem_sortById, isNovel_eq_true_iff]

theorem sorted_newStoriesOf (lastId : Int) (l : List Story) :
    (newStoriesOf lastId l).Sorted leById :=
  (sorted_sortById l).filter _

theorem mem_freshStoriesOf {s : Story} {lastId now maxAgeHours : Int} {l : List Story} :
    s ∈ freshStoriesOf lastId now maxAgeHours l ↔
      s ∈ l ∧ lastId < s.id ∧ now - s.publishedAt ≤ maxAgeHours * msPerHour := by
  simp [freshStoriesOf, List.mem_filter, mem_newStoriesOf, isFresh_eq_true_iff, and_assoc]

theorem sorted_freshStoriesOf (lastId now maxAgeHours : Int) (l : List Story) :
    (freshStoriesOf lastId now maxAgeHours l).Sorted leById :=
  (sorted_newStoriesOf lastId l).filter _

theorem newStoriesOf_eq_nil_iff {lastId : Int} {l : List Story} :
    newStoriesOf lastId l = [] ↔ ∀ s ∈ l, ¬ lastId < s.id := by
  rw [List.eq_nil_iff_forall_not_mem]
  constructor
  · intro h s hs hlt
    exact h s (mem_newStoriesOf.2 ⟨hs, hlt⟩)
  · intro h s hs
    obtain ⟨hmem, hlt⟩ := mem_newStoriesOf.1 hs
    exact h s hmem hlt

theorem freshStoriesOf_eq_nil_iff {lastId now maxAgeHours : Int} {l : List Story} :
    freshStoriesOf lastId now maxAgeHours l = [] ↔
      ∀ s ∈ l, lastId < s.id → ¬ now - s.publishedAt ≤ maxAgeHours * msPerHour := by
  rw [List.eq_nil_iff_forall_not_mem]
  constructor
  · intro h s hs hlt hfr
    exact h s (mem_freshStoriesOf.2 ⟨hs, hlt, hfr⟩)
  · intro h s hs
    obtain ⟨hmem, hlt, hfr⟩ := mem_freshStoriesOf.1 hs
    exact h s hmem hlt hfr

/-! ### `Math.max` over a list of ids -/

theorem le_foldl_max (l : List Story) (a : Int) :
    a ≤ l.foldl (fun m t => max m t.id) a := by
  induction l generalizing a with
  | nil => exact le_refl a
  | cons t rest ih =>
    exact le_trans (le_max_left a t.id) (ih (max a t.id))

theorem le_foldl_max_of_mem {s : Story} {l : List Story} (h : s ∈ l) (a : Int) :
    s.id ≤ l.foldl (fun m t => max m t.id) a := by
  induction l generalizing a with
  | nil => cases h
  | cons t rest ih =>
    rcases List.mem_cons.1 h with rfl | hmem
    · exact le_trans (le_max_right a s.id) (le_foldl_max rest (max a s.id))
    · exact ih hmem (max a t.id)

theorem foldl_max_eq_init_or_mem (l : List Story) (a : Int) :
    l.foldl (fun m t => max m t.id) a = a ∨
      ∃ s ∈ l, l.foldl (fun m t => max m t.id) a = s.id := by
  induction l generalizing a with
  | nil => exact Or.inl rfl
  | cons t rest ih =>
    rcases ih (max a t.id) with h | ⟨s, hs, h⟩
    · rcases le_total a t.id with hle | hle
      · right
        exact ⟨t, List.mem_cons_self t rest, by rw [List.foldl_cons, h, max_eq_right hle]⟩
      · left
        rw [List.foldl_cons, h, max_eq_left hle]
    · right
      exact ⟨s, List.mem_cons_of_mem t hs, by rw [List.foldl_cons, h]⟩

theorem latestIdOf_mem {l : List Story} (h : l ≠ []) :
    ∃ s ∈ l, latestIdOf l = s.id := by
  match l with
  | [] => exact absurd rfl h
  | t :: rest =>
    rcases foldl_max_eq_init_or_mem rest t.id with heq | ⟨s, hs, heq⟩
    · exact ⟨t, List.mem_cons_self t rest, heq⟩
    · exact ⟨s, List.mem_cons_of_mem t hs, heq⟩

theorem le_latestIdOf {s : Story} {l : List Story} (h : s ∈ l) :
    s.id ≤ latestIdOf l := by
  match l with
  | [] => cases h
  | t :: rest =>
    rcases List.mem_cons.1 h with rfl | hmem
    · exact le_foldl_max rest s.id
    · exact le_foldl_max_of_mem hmem t.id

/-! ### Shape of `selectAction` in each of the three branches -/

theorem selectAction_of_no_novel {lastId now maxAgeHours : Int} {feed : List Story}
    (h : newStoriesOf lastId feed = []) :
    selectAction lastId feed now maxAgeHours = SelectionResult.noOp := by
  unfold selectAction
  rw [h]

theorem selectAction_of_stale {lastId now maxAgeHours : Int} {feed : List Story}
    (h1 : newStoriesOf lastId feed ≠ [])
    (h2 : freshStoriesOf lastId now maxAgeHours feed = []) :
    selectAction lastId feed now maxAgeHours =
      SelectionResult.advanceOnly (latestIdOf (newStoriesOf lastId feed)) := by
  rcases hn : newStoriesOf lastId feed with _ | ⟨n, ns⟩
  · exact absurd hn h1
  · have hf : (n :: ns).filter (isFresh now (maxAgeHours * msPerHour)) = [] := by
      rw [freshStoriesOf, hn] at h2
      exact h2
    unfold selectAction
    rw [hn]
    show (match (n :: ns).filter (isFresh now (maxAgeHours * msPerHour)) with
      | [] => SelectionResult.advanceOnly (latestIdOf (n :: ns))
      | s :: _ => SelectionResult.postAndAdvance s) =
        SelectionResult.advanceOnly (latestIdOf (n :: ns))
    rw [hf]

theorem selectAction_of_fresh {lastId now maxAgeHours : Int} {feed : List Story}
    {s : Story} {rest : List Story}
    (h : freshStoriesOf lastId now maxAgeHours feed = s :: rest) :
    selectAction lastId feed now maxAgeHours = SelectionResult.postAndAdvance s := by
  rcases hn : newStoriesOf lastId feed with _ | ⟨n, ns⟩
  · rw [freshStoriesOf, hn] at h
    cases h
  · have hf : (n :: ns).filter (isFresh now (maxAgeHours * msPerHour)) = s :: rest := by
      rw [freshStoriesOf, hn] at h
      exact h
    unfold selectAction
    rw [hn]
    show (match (n :: ns).filter (isFresh now (maxAgeHours * msPerHour)) with
      | [] => SelectionResult.advanceOnly (latestIdOf (n :: ns))
      | t :: _ => SelectionResult.postAndAdvance t) =
        SelectionResult.postAndAdvance s
    rw [hf]

/-- Inverting the `advanceOnly` outcome: the novel set was non-empty, all of
it was stale, and the advanced-to value is `latestIdOf` of the novel set. -/
theorem advanceOnly_inv {lastId now maxAgeHours n : Int} {feed : List Story}
    (h : selectAction lastId feed now maxAgeHours = SelectionResult.advanceOnly n) :
    newStoriesOf lastId feed ≠ [] ∧
      freshStoriesOf lastId now maxAgeHours feed = [] ∧
      n = latestIdOf (newStoriesOf lastId feed) := by
  rcases hn : newStoriesOf lastId feed with _ | ⟨m, ms⟩
  · rw [selectAction_of_no_novel hn] at h
    cases h
  · have hne : newStoriesOf lastId feed ≠ [] := by
      rw [hn]
      exact List.cons_ne_nil m ms
    rcases hf : freshStoriesOf lastId now maxAgeHours feed with _ | ⟨s, rest⟩
    · rw [selectAction_of_stale hne hf, hn] at h
      injection h with h2
      exact ⟨List.cons_ne_nil m ms, rfl, h2.symm⟩
    · rw [selectAction_of_fresh hf] at h
      cases h

/-- Inverting the `postAndAdvance` outcome: the chosen story heads the fresh
list. -/
theorem postAndAdvance_inv {lastId now maxAgeHours : Int} {feed : List Story} {s : Story}
    (h : selectAction lastId feed now maxAgeHours = SelectionResult.postAndAdvance s) :
    ∃ rest, freshStoriesOf lastId now maxAgeHours feed = s :: rest := by
  rcases hn : newStoriesOf lastId feed with _ | ⟨m, ms⟩
  · rw [selectAction_of_no_novel hn] at h
    cases h
  · have hne : newStoriesOf lastId feed ≠ [] := by
      rw [hn]
      exact List.cons_ne_nil m ms
    rcases hf : freshStoriesOf lastId now maxAgeHours feed with _ | ⟨t, rest⟩
    · rw [selectAction_of_stale hne hf] at h
      cases h
    · rw [selectAction_of_fresh hf] at h
      injection h with h2
      subst h2
      exact ⟨rest, rfl⟩

/-- Inverting the `noOp` outcome: nothing in the feed was novel. -/
theorem noOp_inv {lastId now maxAgeHours : Int} {feed : List Story}
    (h : selectAction lastId feed now maxAgeHours = SelectionResult.noOp) :
    ∀ s ∈ feed, ¬ lastId < s.id := by
  rcases hn : newStoriesOf lastId feed with _ | ⟨m, ms⟩
  · exact newStoriesOf_eq_nil_iff.1 hn
  · exfalso
    have hne : newStoriesOf lastId feed ≠ [] := by
      rw [hn]
      exact List.cons_ne_nil m ms
    rcases hf : freshStoriesOf lastId now maxAgeHours feed with _ | ⟨t, rest⟩
    · rw [selectAction_of_stale hne hf] at h
      cases h
    · rw [selectAction_of_fresh hf] at h
      cases h

/-- The story chosen by the `postAndAdvance` branch is a novel fresh member
of the feed with minimal id among the novel fresh members. -/
theorem chosen_spec {lastId now maxAgeHours : Int} {feed : List Story} {s : Story}
    (h : selectAction lastId feed now maxAgeHours = SelectionResult.postAndAdvance s) :
    s ∈ feed ∧ lastId < s.id ∧ now - s.publishedAt ≤ maxAgeHours * msPerHour ∧
      ∀ t ∈ feed, lastId < t.id → now - t.publishedAt ≤ maxAgeHours * msPerHour →
        s.id ≤ t.id := by
  obtain ⟨rest, hf⟩ := postAndAdvance_inv h
  have hs : s ∈ freshStoriesOf lastId now maxAgeHours feed := by
    rw [hf]
    exact List.mem_cons_self s rest
  obtain ⟨hmem, hnov, hfr⟩ := mem_freshStoriesOf.1 hs
  refine ⟨hmem, hnov, hfr, ?_⟩
  intro t htmem htnov htfr
  have ht : t ∈ freshStoriesOf lastId now maxAgeHours feed :=
    mem_freshStoriesOf.2 ⟨htmem, htnov, htfr⟩
  rw [hf] at ht
  rcases List.mem_cons.1 ht with heq | htrest
  · rw [heq]
  · have hsorted := sorted_freshStoriesOf lastId now maxAgeHours feed
    rw [hf] at hsorted
    exact List.rel_of_sorted_cons hsorted t htrest

/-- Every `advanceOnly` target exceeds the loaded cursor. -/
theorem advanceOnly_gt {lastId now maxAgeHours n : Int} {feed : List Story}
    (h : selectAction lastId feed now maxAgeHours = SelectionResult.advanceOnly n) :
    lastId < n := by
  obtain ⟨hne, _, hn⟩ := advanceOnly_inv h
  obtain ⟨s, hs, heq⟩ := latestIdOf_mem hne
  obtain ⟨_, hnov⟩ := mem_newStoriesOf.1 hs
  rw [hn, heq]
  exact hnov

/-- Every posted story's id exceeds the loaded cursor. -/
theorem postAndAdvance_gt {lastId now maxAgeHours : Int} {feed : List Story} {s : Story}
    (h : selectAction lastId feed now maxAgeHours = SelectionResult.postAndAdvance s) :
    lastId < s.id :=
  (chosen_spec h).2.1

/-! ### Retry, run and sequence lemmas -/

theorem retrySucceeds_three (attemptOk : Nat → Bool) :
    retrySucceeds attemptOk 3 = (attemptOk 1 || attemptOk 2 || attemptOk 3) := by
  cases h1 : attemptOk 1 <;> cases h2 : attemptOk 2 <;> cases h3 : attemptOk 3 <;>
    simp [retrySucceeds, List.range_succ, h1, h2, h3]

theorem lastId_le_finalLastId (lastId now maxAgeHours : Int) (feed : List Story)
    (dryRun : Bool) (attemptOk : Nat → Bool) :
    lastId ≤ finalLastId lastId (runBot lastId feed now maxAgeHours dryRun attemptOk) := by
  rcases hsel : selectAction lastId feed now maxAgeHours with _ | n | s
  · simp [runBot, hsel, finalLastId]
  · have hlt := advanceOnly_gt hsel
    simp only [runBot, hsel, finalLastId, Option.getD_some]
    exact le_of_lt hlt
  · have hlt := postAndAdvance_gt hsel
    by_cases hd : dryRun
    · simp [runBot, hsel, finalLastId, hd]
    · by_cases hr : retrySucceeds attemptOk 3
      · simp only [runBot, hsel, finalLastId, hd, hr, if_false, if_true,
          Bool.false_eq_true, Option.getD_some]
        exact le_of_lt hlt
      · simp [runBot, hsel, finalLastId, hd, hr]

theorem lastId_le_runSeq (lastId : Int) (inputs : List RunInput) :
    lastId ≤ runSeq lastId inputs := by
  induction inputs generalizing lastId with
  | nil => exact le_refl lastId
  | cons i rest ih =>
    exact le_trans
      (lastId_le_finalLastId lastId i.now i.maxAgeHours i.feed i.dryRun i.attemptOk)
      (ih _)

/-! ### Duplicate-id removal lemmas -/

theorem dedupByIdAux_subset {seen : List Int} {l : List Story} {x : Story}
    (h : x ∈ dedupByIdAux seen l) : x ∈ l := by
  induction l generalizing seen with
  | nil =>
    rw [dedupByIdAux] at h
    cases h
  | cons s rest ih =>
    rw [dedupByIdAux] at h
    by_cases hs : s.id ∈ seen
    · rw [if_pos hs] at h
      exact List.mem_cons_of_mem s (ih h)
    · rw [if_neg hs] at h
      rcases List.mem_cons.1 h with rfl | h2
      · exact List.mem_cons_self _ _
      · exact List.mem_cons_of_mem s (ih h2)

theorem dedupByIdAux_covers {seen : List Int} {l : List Story} {x : Story}
    (hx : x ∈ l) (hseen : x.id ∉ seen) :
    ∃ y ∈ dedupByIdAux seen l, y.id = x.id := by
  induction l generalizing seen with
  | nil => cases hx
  | cons s rest ih =>
    rw [dedupByIdAux]
    by_cases hs : s.id ∈ seen
    · rw [if_pos hs]
      rcases List.mem_cons.1 hx with rfl | hx2
      · exact absurd hs hseen
      · exact ih hx2 hseen
    · rw [if_neg hs]
      by_cases hxs : x.id = s.id
      · exact ⟨s, List.mem_cons_self _ _, hxs.symm⟩
      · rcases List.mem_cons.1 hx with rfl | hx2
        · exact absurd rfl hxs
        · have hnotin : x.id ∉ s.id :: seen := by
            intro hmem
            rcases List.mem_cons.1 hmem with heq | hmem2
            · exact hxs heq
            · exact hseen hmem2
          obtain ⟨y, hy, hyid⟩ := ih hx2 hnotin
          exact ⟨y, List.mem_cons_of_mem s hy, hyid⟩

theorem mem_dedupById_iff {l : List Story} {x : Story}
    (hinj : ∀ a ∈ l, ∀ b ∈ l, a.id = b.id → a = b) :
    x ∈ dedupById l ↔ x ∈ l := by
  constructor
  · exact dedupByIdAux_subset
  · intro hx
    obtain ⟨y, hy, hyid⟩ := dedupByIdAux_covers hx (List.not_mem_nil x.id)
    have hyl : y ∈ l := dedupByIdAux_subset hy
    have heq : y = x := hinj y hyl x hx hyid
    rw [← heq]
    exact hy

/-- Selection is a function of the membership set of the candidate list when
no two distinct members share an id. -/
theorem selectAction_membership_invariant (lastId now maxAgeHours : Int)
    {l l2 : List Story}
    (hmem : ∀ x, x ∈ l ↔ x ∈ l2)
    (hinj : ∀ a ∈ l, ∀ b ∈ l, a.id = b.id → a = b) :
    selectAction lastId l now maxAgeHours = selectAction lastId l2 now maxAgeHours := by
  rcases hsel : selectAction lastId l now maxAgeHours with _ | n | s
  · have hnone := noOp_inv hsel
    have : ∀ t ∈ l2, ¬ lastId < t.id := fun t ht => hnone t ((hmem t).2 ht)
    exact (selectAction_of_no_novel (newStoriesOf_eq_nil_iff.2 this)).symm
  · obtain ⟨hne, hf, hn⟩ := advanceOnly_inv hsel
    obtain ⟨w, hw⟩ := List.exists_mem_of_ne_nil _ hne
    obtain ⟨hwl, hwnov⟩ := mem_newStoriesOf.1 hw
    have hstale := freshStoriesOf_eq_nil_iff.1 hf
    have hne2 : newStoriesOf lastId l2 ≠ [] := by
      intro hnil
      exact (newStoriesOf_eq_nil_iff.1 hnil) w ((hmem w).1 hwl) hwnov
    have hf2 : freshStoriesOf lastId now maxAgeHours l2 = [] :=
      freshStoriesOf_eq_nil_iff.2 fun t ht htnov =>
        hstale t ((hmem t).2 ht) htnov
    rw [selectAction_of_stale hne2 hf2, hn]
    have hle1 : latestIdOf (newStoriesOf lastId l) ≤ latestIdOf (newStoriesOf lastId l2) := by
      obtain ⟨u, hu, huid⟩ := latestIdOf_mem hne
      obtain ⟨hul, hunov⟩ := mem_newStoriesOf.1 hu
      rw [huid]
      exact le_latestIdOf (mem_newStoriesOf.2 ⟨(hmem u).1 hul, hunov⟩)
    have hle2 : latestIdOf (newStoriesOf lastId l2) ≤ latestIdOf (newStoriesOf lastId l) := by
      obtain ⟨u, hu, huid⟩ := latestIdOf_mem hne2
      obtain ⟨hul, hunov⟩ := mem_newStoriesOf.1 hu
      rw [huid]
      exact le_latestIdOf (mem_newStoriesOf.2 ⟨(hmem u).2 hul, hunov⟩)
    rw [le_antisymm hle1 hle2]
  · obtain ⟨hsl, hsnov, hsfr, hsmin⟩ := chosen_spec hsel
    have hs2 : s ∈ freshStoriesOf lastId now maxAgeHours l2 :=
      mem_freshStoriesOf.2 ⟨(hmem s).1 hsl, hsnov, hsfr⟩
    rcases hf2 : freshStoriesOf lastId now maxAgeHours l2 with _ | ⟨t, rest⟩
    · rw [hf2] at hs2
      cases hs2
    · have hsel2 := selectAction_of_fresh hf2
      obtain ⟨htl2, htnov, htfr, htmin⟩ := chosen_spec hsel2
      have htl : t ∈ l := (hmem t).2 htl2
      have h1 : s.id ≤ t.id := hsmin t htl htnov htfr
      have h2 : t.id ≤ s.id := htmin s ((hmem s).1 hsl) hsnov hsfr
      have : s = t := hinj s hsl t htl (le_antisymm h1 h2)
      rw [hsel2, this]

/-! ### Claims -/

/-- C1: in dry-run mode a run whose selection yields `postAndAdvance` skips
both the publish call and the cursor save (the state file is left as if the
run never happened), while a run whose selection yields `advanceOnly`
(stale backlog) still saves the advanced cursor even under dry-run. -/
theorem dryRun_asymmetry (lastId now maxAgeHours : Int) (feed : List Story)
    (attemptOk : Nat → Bool) :
    (∀ s, selectAction lastId feed now maxAgeHours = SelectionResult.postAndAdvance s →
      runBot lastId feed now maxAgeHours true attemptOk =
        { saved := none, exitCode := 0, published := none, dryRunReported := some s } ∧
      finalLastId lastId (runBot lastId feed now maxAgeHours true attemptOk) = lastId) ∧
    (∀ n, selectAction lastId feed now maxAgeHours = SelectionResult.advanceOnly n →
      runBot lastId feed now maxAgeHours true attemptOk =
        { saved := some n, exitCode := 0, published := none, dryRunReported := none }) := by
  constructor
  · intro s hsel
    constructor
    · simp [runBot, hsel]
    · simp [runBot, hsel, finalLastId]
  · intro n hsel
    simp [runBot, hsel]

/-- Witness for C1: a dry run over a fresh novel story posts and saves
nothing, while a dry run over a stale novel backlog still saves the
advanced cursor. -/
theorem dryRun_asymmetry_witness :
    runBot 100 [exStory 102 0] 0 48 true (fun _ => true) =
      { saved := none, exitCode := 0, published := none,
        dryRunReported := some (exStory 102 0) } ∧
    runBot 100 [exStory 101 (-(200 * msPerHour)), exStory 102 (-(200 * msPerHour))]
        0 48 true (fun _ => true) =
      { saved := some 102, exitCode := 0, published := none, dryRunReported := none } :=
  ⟨((dryRun_asymmetry 100 0 48 [exStory 102 0] (fun _ => true)).1
      (exStory 102 0) (by decide)).1,
   (dryRun_asymmetry 100 0 48
      [exStory 101 (-(200 * msPerHour)), exStory 102 (-(200 * msPerHour))]
      (fun _ => true)).2 102 (by decide)⟩

/-- C2: when the novel set is non-empty but none of it is fresh, the run
posts nothing and advances the persisted cursor to the greatest id over the
entire novel set. -/
theorem stale_backlog_advances_to_max (lastId now maxAgeHours : Int) (feed : List Story)
    (dryRun : Bool) (attemptOk : Nat → Bool)
    (h1 : ∃ s ∈ feed, lastId < s.id)
    (h2 : ∀ s ∈ feed, lastId < s.id → ¬ now - s.publishedAt ≤ maxAgeHours * msPerHour) :
    ∃ m, selectAction lastId feed now maxAgeHours = SelectionResult.advanceOnly m ∧
      (∃ s ∈ feed, lastId < s.id ∧ s.id = m) ∧
      (∀ s ∈ feed, lastId < s.id → s.id ≤ m) ∧
      runBot lastId feed now maxAgeHours dryRun attemptOk =
        { saved := some m, exitCode := 0, published := none, dryRunReported := none } := by
  obtain ⟨w, hw, hwnov⟩ := h1
  have hne : newStoriesOf lastId feed ≠ [] := by
    intro hnil
    exact (newStoriesOf_eq_nil_iff.1 hnil) w hw hwnov
  have hf : freshStoriesOf lastId now maxAgeHours feed = [] :=
    freshStoriesOf_eq_nil_iff.2 h2
  have hsel := selectAction_of_stale hne hf
  refine ⟨latestIdOf (newStoriesOf lastId feed), hsel, ?_, ?_, ?_⟩
  · obtain ⟨u, hu, huid⟩ := latestIdOf_mem hne
    obtain ⟨hul, hunov⟩ := mem_newStoriesOf.1 hu
    exact ⟨u, hul, hunov, huid.symm⟩
  · intro s hs hsnov
    exact le_latestIdOf (mem_newStoriesOf.2 ⟨hs, hsnov⟩)
  · simp [runBot, hsel]

/-- Witness for C2: candidates with ids 101 and 102, both far older than
48 hours, with cursor 100, give `advanceOnly 102`. -/
theorem stale_backlog_witness :
    (∃ m, selectAction 100
        [exStory 101 (-(200 * msPerHour)), exStory 102 (-(200 * msPerHour))] 0 48 =
        SelectionResult.advanceOnly m ∧
      (∃ s ∈ [exStory 101 (-(200 * msPerHour)), exStory 102 (-(200 * msPerHour))],
        100 < s.id ∧ s.id = m) ∧
      (∀ s ∈ [exStory 101 (-(200 * msPerHour)), exStory 102 (-(200 * msPerHour))],
        100 < s.id → s.id ≤ m) ∧
      runBot 100 [exStory 101 (-(200 * msPerHour)), exStory 102 (-(200 * msPerHour))]
          0 48 false (fun _ => true) =
        { saved := some m, exitCode := 0, published := none, dryRunReported := none }) ∧
    selectAction 100
        [exStory 101 (-(200 * msPerHour)), exStory 102 (-(200 * msPerHour))] 0 48 =
      SelectionResult.advanceOnly 102 :=
  ⟨stale_backlog_advances_to_max 100 0 48
      [exStory 101 (-(200 * msPerHour)), exStory 102 (-(200 * msPerHour))]
      false (fun _ => true)
      ⟨exStory 102 (-(200 * msPerHour)), by decide, by decide⟩ (by decide),
   by decide⟩

/-- C3: when at least one novel candidate is fresh, the chosen story is a
novel fresh member of the feed with the smallest id among all novel fresh
candidates (oldest first). -/
theorem oldest_fresh_novel_chosen (lastId now maxAgeHours : Int) (feed : List Story)
    (h : ∃ s ∈ feed, lastId < s.id ∧ now - s.publishedAt ≤ maxAgeHours * msPerHour) :
    ∃ s, selectAction lastId feed now maxAgeHours = SelectionResult.postAndAdvance s ∧
      s ∈ feed ∧ lastId < s.id ∧ now - s.publishedAt ≤ maxAgeHours * msPerHour ∧
      ∀ t ∈ feed, lastId < t.id → now - t.publishedAt ≤ maxAgeHours * msPerHour →
        s.id ≤ t.id := by
  obtain ⟨w, hw, hwnov, hwfr⟩ := h
  have hwmem : w ∈ freshStoriesOf lastId now maxAgeHours feed :=
    mem_freshStoriesOf.2 ⟨hw, hwnov, hwfr⟩
  rcases hf : freshStoriesOf lastId now maxAgeHours feed with _ | ⟨s, rest⟩
  · rw [hf] at hwmem
    cases hwmem
  · have hsel := selectAction_of_fresh hf
    exact ⟨s, hsel, chosen_spec hsel⟩

/-- Witness for C3: fresh candidates with ids 105, 102, 108 and cursor 100
yield the story with id 102. -/
theorem oldest_first_witness :
    (∃ s, selectAction 100 [exStory 105 0, exStory 102 0, exStory 108 0] 0 48 =
        SelectionResult.postAndAdvance s ∧
      s ∈ [exStory 105 0, exStory 102 0, exStory 108 0] ∧ 100 < s.id ∧
      0 - s.publishedAt ≤ 48 * msPerHour ∧
      ∀ t ∈ [exStory 105 0, exStory 102 0, exStory 108 0],
        100 < t.id → 0 - t.publishedAt ≤ 48 * msPerHour → s.id ≤ t.id) ∧
    selectAction 100 [exStory 105 0, exStory 102 0, exStory 108 0] 0 48 =
      SelectionResult.postAndAdvance (exStory 102 0) :=
  ⟨oldest_fresh_novel_chosen 100 0 48 [exStory 105 0, exStory 102 0, exStory 108 0]
      ⟨exStory 102 0, by decide, by decide, by decide⟩,
   by decide⟩

/-- C4: the persisted cursor never decreases: after one run — whichever of
the three outcomes occurred — and after any sequence of runs, the
state-file value is at least the value loaded at the start. -/
theorem persisted_lastId_monotone (lastId now maxAgeHours : Int) (feed : List Story)
    (dryRun : Bool) (attemptOk : Nat → Bool) (inputs : List RunInput) :
    lastId ≤ finalLastId lastId (runBot lastId feed now maxAgeHours dryRun attemptOk) ∧
    lastId ≤ runSeq lastId inputs :=
  ⟨lastId_le_finalLastId lastId now maxAgeHours feed dryRun attemptOk,
   lastId_le_runSeq lastId inputs⟩

/-- C5: for a real (non-dry) `postAndAdvance` run, the cursor is saved only
after a successful publish: if every publish attempt fails the run exits
with code 1 without saving, the state file keeps its loaded value, and the
unposted story is chosen again by the next run over the same feed; if a
publish attempt succeeds, the posted story's id is saved. -/
theorem save_only_after_publish (lastId now maxAgeHours : Int) (feed : List Story)
    (attemptOk : Nat → Bool) (s : Story)
    (hsel : selectAction lastId feed now maxAgeHours = SelectionResult.postAndAdvance s) :
    ((∀ i, 1 ≤ i → i ≤ 3 → attemptOk i = false) →
      runBot lastId feed now maxAgeHours false attemptOk =
        { saved := none, exitCode := 1, published := none, dryRunReported := none } ∧
      finalLastId lastId (runBot lastId feed now maxAgeHours false attemptOk) = lastId ∧
      selectAction (finalLastId lastId (runBot lastId feed now maxAgeHours false attemptOk))
          feed now maxAgeHours = SelectionResult.postAndAdvance s) ∧
    (retrySucceeds attemptOk 3 = true →
      runBot lastId feed now maxAgeHours false attemptOk =
        { saved := some s.id, exitCode := 0, published := some s,
          dryRunReported := none }) := by
  constructor
  · intro hfail
    have hret : retrySucceeds attemptOk 3 = false := by
      rw [retrySucceeds_three]
      rw [hfail 1 (by omega) (by omega), hfail 2 (by omega) (by omega),
        hfail 3 (by omega) (by omega)]
      rfl
    have hrun : runBot lastId feed now maxAgeHours false attemptOk =
        { saved := none, exitCode := 1, published := none, dryRunReported := none } := by
      simp [runBot, hsel, hret]
    refine ⟨hrun, ?_, ?_⟩
    · rw [hrun]
      rfl
    · rw [hrun]
      exact hsel
  · intro hret
    simp [runBot, hsel, hret]

/-- Witness for C5: the story with id 102 is selected with cursor 100; with
all publish attempts failing the run exits 1 and saves nothing, with a
successful publish it saves 102. -/
theorem publish_failure_witness :
    runBot 100 [exStory 102 0] 0 48 false (fun _ => false) =
      { saved := none, exitCode := 1, published := none, dryRunReported := none } ∧
    runBot 100 [exStory 102 0] 0 48 false (fun _ => true) =
      { saved := some 102, exitCode := 0, published := some (exStory 102 0),
        dryRunReported := none } :=
  ⟨((save_only_after_publish 100 0 48 [exStory 102 0] (fun _ => false) (exStory 102 0)
      (by decide)).1 (fun _ _ _ => rfl)).1,
   (save_only_after_publish 100 0 48 [exStory 102 0] (fun _ => true) (exStory 102 0)
      (by decide)).2 rfl⟩

/-- C6: the freshness filter has an inclusive boundary: a story passes
exactly when `now` minus its publication time is at most `maxAgeHours`
(in milliseconds), so a story published exactly `maxAgeHours` before `now`
is fresh, and a novel story is retained in `freshStories` exactly under
that bound. -/
theorem freshness_inclusive_boundary (lastId now maxAgeHours : Int) (feed : List Story)
    (s : Story) :
    (isFresh now (maxAgeHours * msPerHour) s = true ↔
      now - s.publishedAt ≤ maxAgeHours * msPerHour) ∧
    (s ∈ freshStoriesOf lastId now maxAgeHours feed ↔
      s ∈ newStoriesOf lastId feed ∧ now - s.publishedAt ≤ maxAgeHours * msPerHour) ∧
    (now - s.publishedAt = maxAgeHours * msPerHour →
      isFresh now (maxAgeHours * msPerHour) s = true) := by
  refine ⟨isFresh_eq_true_iff, ?_, ?_⟩
  · simp [freshStoriesOf, List.mem_filter, isFresh_eq_true_iff]
  · intro heq
    rw [isFresh_eq_true_iff, heq]

/-- Witness for C6: a story published exactly 48 hours before `now` is
fresh and gets posted. -/
theorem freshness_boundary_witness :
    isFresh 0 (48 * msPerHour) (exStory 101 (-(48 * msPerHour))) = true ∧
    selectAction 100 [exStory 101 (-(48 * msPerHour))] 0 48 =
      SelectionResult.postAndAdvance (exStory 101 (-(48 * msPerHour))) :=
  ⟨(freshness_inclusive_boundary 100 0 48 [exStory 101 (-(48 * msPerHour))]
      (exStory 101 (-(48 * msPerHour)))).2.2 (by decide),
   by decide⟩

/-- C7: the novelty filter is strict: a candidate is kept in `newStories`
exactly when its id strictly exceeds the stored cursor, a candidate whose
id equals the cursor is excluded, and when no candidate is novel the run is
a no-op. -/
theorem novelty_strict_boundary (lastId now maxAgeHours : Int) (feed : List Story)
    (s : Story) :
    (s ∈ newStoriesOf lastId feed ↔ s ∈ feed ∧ lastId < s.id) ∧
    (s.id = lastId → s ∉ newStoriesOf lastId feed) ∧
    ((∀ t ∈ feed, ¬ lastId < t.id) →
      selectAction lastId feed now maxAgeHours = SelectionResult.noOp) := by
  refine ⟨mem_newStoriesOf, ?_, ?_⟩
  · intro heq hmem
    have := (mem_newStoriesOf.1 hmem).2
    omega
  · intro h
    exact selectAction_of_no_novel (newStoriesOf_eq_nil_iff.2 h)

/-- Witness for C7: a story whose id equals the cursor (500) is excluded
and the run is a no-op. -/
theorem novelty_boundary_witness :
    exStory 500 0 ∉ newStoriesOf 500 [exStory 500 0] ∧
    selectAction 500 [exStory 500 0] 0 48 = SelectionResult.noOp :=
  ⟨(novelty_strict_boundary 500 0 48 [exStory 500 0] (exStory 500 0)).2.1 rfl,
   (novelty_strict_boundary 500 0 48 [exStory 500 0] (exStory 500 0)).2.2 (by decide)⟩

/-- C8: duplicate ids collapse to a single logical item: when entries
sharing an id are copies of the same item (equal records, the spec's
"treated as the same item"), selection on the feed equals selection on the
feed with duplicate-id entries removed — same decision, same chosen story,
same new cursor. -/
theorem dedup_preserves_selection (lastId now maxAgeHours : Int) (feed : List Story)
    (hdup : ∀ a ∈ feed, ∀ b ∈ feed, a.id = b.id → a = b) :
    selectAction lastId feed now maxAgeHours =
      selectAction lastId (dedupById feed) now maxAgeHours :=
  selectAction_membership_invariant lastId now maxAgeHours
    (fun _ => (mem_dedupById_iff hdup).symm) hdup

/-- Witness for C8: a feed with a duplicated story (id 101 twice) selects
exactly as its deduplicated form does. -/
theorem dedup_witness :
    selectAction 100 [exStory 101 0, exStory 101 0, exStory 105 0] 0 48 =
      selectAction 100 (dedupById [exStory 101 0, exStory 101 0, exStory 105 0]) 0 48 ∧
    dedupById [exStory 101 0, exStory 101 0, exStory 105 0] =
      [exStory 101 0, exStory 105 0] ∧
    selectAction 100 [exStory 101 0, exStory 101 0, exStory 105 0] 0 48 =
      SelectionResult.postAndAdvance (exStory 101 0) :=
  ⟨dedup_preserves_selection 100 0 48 [exStory 101 0, exStory 101 0, exStory 105 0]
      (by decide),
   by decide, by decide⟩

/-- C9 counterexample: the empty object `{}` is syntactically valid JSON but
malformed state (not the documented `{"lastStoryId": n}` shape);
`loadState` returns it unchanged, so the cursor read in `main` is
`undefined`, not 0 — and the malformed state `null` even makes the
property access throw, so the condition is not always recovered and can
surface as a run failure. -/
theorem loadState_malformed_counterexample :
    isWellFormedState (Json.obj []) = false ∧
    getLastStoryId (loadState (StateFileRead.parsed (Json.obj []))) ≠
      PropAccess.value (JsValue.num 0) ∧
    isWellFormedState Json.null = false ∧
    getLastStoryId (loadState (StateFileRead.parsed Json.null)) = PropAccess.throws := by
  refine ⟨rfl, ?_, rfl, rfl⟩
  intro h
  have hval : getLastStoryId (loadState (StateFileRead.parsed (Json.obj []))) =
      PropAccess.value JsValue.undef := rfl
  rw [hval] at h
  injection h with h2
  cases h2

/-- C9 amended: loading returns a cursor of 0 exactly when the state file is
missing/unreadable or its content fails to parse as JSON; syntactically
valid JSON is returned without shape validation (so wrong-shape state
yields an undefined — or for `null` a throwing — cursor read, not 0). -/
theorem loadState_recovery_amended :
    (∀ r : StateFileRead,
      (r = StateFileRead.readError ∨ r = StateFileRead.parseError) →
      loadState r = Json.obj [("lastStoryId", Json.num 0)] ∧
      getLastStoryId (loadState r) = PropAccess.value (JsValue.num 0)) ∧
    (∀ v : Json, loadState (StateFileRead.parsed v) = v) := by
  constructor
  · rintro r (rfl | rfl) <;> exact ⟨rfl, rfl⟩
  · intro v
    rfl

/-- Witness for the amended C9: a missing/unreadable state file loads as
cursor 0. -/
theorem loadState_amended_witness :
    loadState StateFileRead.readError = Json.obj [("lastStoryId", Json.num 0)] ∧
    getLastStoryId (loadState StateFileRead.readError) =
      PropAccess.value (JsValue.num 0) :=
  loadState_recovery_amended.1 StateFileRead.readError (Or.inl rfl)

/-- C10: every write of the state file strictly increases the stored cursor
relative to the value loaded at the start of the run, and a no-op run
performs no write at all. -/
theorem state_writes_strictly_increase (lastId now maxAgeHours v : Int)
    (feed : List Story) (dryRun : Bool) (attemptOk : Nat → Bool) :
    ((runBot lastId feed now maxAgeHours dryRun attemptOk).saved = some v →
      lastId < v) ∧
    (selectAction lastId feed now maxAgeHours = SelectionResult.noOp →
      (runBot lastId feed now maxAgeHours dryRun attemptOk).saved = none) := by
  constructor
  · intro hsaved
    rcases hsel : selectAction lastId feed now maxAgeHours with _ | n | s
    · simp [runBot, hsel] at hsaved
    · have hlt := advanceOnly_gt hsel
      simp only [runBot, hsel] at hsaved
      injection hsaved with h2
      omega
    · have hlt := postAndAdvance_gt hsel
      by_cases hd : dryRun
      · simp [runBot, hsel, hd] at hsaved
      · by_cases hr : retrySucceeds attemptOk 3
        · simp only [runBot, hsel, hd, hr, if_false, if_true, Bool.false_eq_true] at hsaved
          injection hsaved with h2
          omega
        · simp [runBot, hsel, hd, hr] at hsaved
  · intro hsel
    simp [runBot, hsel]

/-- Witness for C10: the stale-backlog run from cursor 100 writes 102 (and
102 is strictly greater than 100), while a no-op run writes nothing. -/
theorem state_write_witness :
    (100 : Int) < 102 ∧
    (runBot 500 [exStory 500 0] 0 48 false (fun _ => true)).saved = none :=
  ⟨(state_writes_strictly_increase 100 0 48 102
      [exStory 101 (-(200 * msPerHour)), exStory 102 (-(200 * msPerHour))]
      false (fun _ => true)).1 (by decide),
   (state_writes_strictly_increase 500 0 48 0 [exStory 500 0]
      false (fun _ => true)).2 (by decide)⟩

end BskyHnBot
